import Mathlib

/-!
Shallow embedding of the yuzu webrtc gateway media path
(src/gateway/audio_utils.py, src/gateway/main.py,
src/gateway/gateway_control_client.py) and proofs about its
documented behaviour.

Frames and byte strings are modelled as lists over an arbitrary
element type: only ordering, slicing and lengths matter to the
properties below.  Timestamps are integers (milliseconds), RMS
values are rationals.
-/

namespace Gateway

variable {α : Type}

/-! ### audio_utils.RingBuffer -/

/-- Model of `audio_utils.RingBuffer`: a deque of frames with a soft
capacity and a hard cap, both measured in frames. -/
structure RingBuffer (α : Type) where
  frameMs : Nat
  capacityFrames : Nat
  hardCapFrames : Nat
  q : List α

/-- Constructor `RingBuffer.__init__`: `capacity_frames = max(1, capacity_ms // frame_ms)`,
`hard_cap_frames = max(capacity_frames, hard_cap_ms // frame_ms)`, empty deque. -/
def RingBuffer.create (α : Type) (capacityMs hardCapMs frameMs : Nat) : RingBuffer α :=
  let cap := max 1 (capacityMs / frameMs)
  { frameMs := frameMs
    capacityFrames := cap
    hardCapFrames := max cap (hardCapMs / frameMs)
    q := [] }

/-- Model of `RingBuffer.push`: append the frame, then pop from the left
while the length exceeds `hard_cap_frames`. -/
def RingBuffer.push (b : RingBuffer α) (f : α) : RingBuffer α :=
  let q2 := b.q ++ [f]
  { b with q := q2.drop (q2.length - b.hardCapFrames) }

/-- Model of `RingBuffer.flush_all`: return the stored frames and empty the deque. -/
def RingBuffer.flushAll (b : RingBuffer α) : List α × RingBuffer α :=
  (b.q, { b with q := [] })

/-- A sequence of `push` operations, oldest first. -/
def RingBuffer.pushAll (b : RingBuffer α) (fs : List α) : RingBuffer α :=
  fs.foldl RingBuffer.push b

theorem RingBuffer.push_hardCap (b : RingBuffer α) (f : α) :
    (b.push f).hardCapFrames = b.hardCapFrames := rfl

theorem RingBuffer.push_length (b : RingBuffer α) (f : α) :
    (b.push f).q.length = min (b.q.length + 1) b.hardCapFrames := by
  simp [RingBuffer.push]
  omega

theorem RingBuffer.pushAll_le (fs : List α) (b : RingBuffer α) :
    (b.pushAll fs).q.length ≤ max b.q.length b.hardCapFrames := by
  induction fs generalizing b with
  | nil => simp [RingBuffer.pushAll]
  | cons f fs ih =>
    have h := ih (b.push f)
    simp [RingBuffer.pushAll] at h ⊢
    rw [RingBuffer.push_hardCap] at h
    rw [RingBuffer.push_length] at h
    omega

theorem RingBuffer.push_suffix (b : RingBuffer α) (f : α) :
    (b.push f).q.IsSuffix (b.q ++ [f]) :=
  List.drop_suffix _ _

/-! ### audio_utils.FrameBatcher -/

/-- Bytes per millisecond of 16 kHz mono PCM16 audio (`_bytes_per_ms = 32`). -/
def bytesPerMs : Nat := 32

/-- Model of `audio_utils.FrameBatcher`: a byte accumulator that emits
`batch_ms`-sized chunks. -/
structure FrameBatcher (α : Type) where
  batchMs : Nat
  buf : List α

/-- Constructor `FrameBatcher.__init__`. -/
def FrameBatcher.create (α : Type) (batchMs : Nat) : FrameBatcher α :=
  { batchMs := batchMs, buf := [] }

/-- The emission target `_target = batch_ms * _bytes_per_ms`. -/
def FrameBatcher.target (fb : FrameBatcher α) : Nat := fb.batchMs * bytesPerMs

/-- Model of `FrameBatcher.add`: append the bytes when non-empty. -/
def FrameBatcher.add (fb : FrameBatcher α) (pcm : List α) : FrameBatcher α :=
  if pcm.isEmpty then fb else { fb with buf := fb.buf ++ pcm }

/-- Model of `FrameBatcher.emit_ready`: return one `_target`-sized chunk when
at least `_target` bytes are buffered, else nothing. -/
def FrameBatcher.emitReady (fb : FrameBatcher α) : Option (List α) × FrameBatcher α :=
  if fb.target ≤ fb.buf.length then
    (some (fb.buf.take fb.target), { fb with buf := fb.buf.drop fb.target })
  else (none, fb)

/-- Model of `FrameBatcher.flush`: return the whole buffer when non-empty. -/
def FrameBatcher.flush (fb : FrameBatcher α) : Option (List α) × FrameBatcher α :=
  if fb.buf.isEmpty then (none, fb) else (some fb.buf, { fb with buf := [] })

/-- A sequence of `add` calls. -/
def FrameBatcher.addAll (fb : FrameBatcher α) (chunks : List (List α)) : FrameBatcher α :=
  chunks.foldl FrameBatcher.add fb

/-- Repeated `emit_ready` until it returns nothing: collect the emitted chunks
and the final batcher state. -/
def FrameBatcher.emitAll (fb : FrameBatcher α) : List (List α) × FrameBatcher α :=
  if _h : 0 < fb.target ∧ fb.target ≤ fb.buf.length then
    let c := fb.buf.take fb.target
    let rest := FrameBatcher.emitAll { fb with buf := fb.buf.drop fb.target }
    (c :: rest.1, rest.2)
  else ([], fb)
termination_by fb.buf.length
decreasing_by simp; omega

theorem FrameBatcher.add_buf (fb : FrameBatcher α) (pcm : List α) :
    (fb.add pcm).buf = fb.buf ++ pcm := by
  by_cases hc : pcm = [] <;> simp [FrameBatcher.add, hc]

theorem FrameBatcher.add_batchMs (fb : FrameBatcher α) (pcm : List α) :
    (fb.add pcm).batchMs = fb.batchMs := by
  by_cases hc : pcm = [] <;> simp [FrameBatcher.add, hc]

theorem FrameBatcher.addAll_buf (chunks : List (List α)) (fb : FrameBatcher α) :
    (fb.addAll chunks).buf = fb.buf ++ chunks.flatten := by
  induction chunks generalizing fb with
  | nil => simp [FrameBatcher.addAll]
  | cons c cs ih =>
    have h := ih (fb.add c)
    simp [FrameBatcher.addAll] at h ⊢
    rw [h, FrameBatcher.add_buf]
    simp

theorem FrameBatcher.addAll_batchMs (chunks : List (List α)) (fb : FrameBatcher α) :
    (fb.addAll chunks).batchMs = fb.batchMs := by
  induction chunks generalizing fb with
  | nil => rfl
  | cons c cs ih =>
    have h := ih (fb.add c)
    simp [FrameBatcher.addAll] at h ⊢
    rw [h, FrameBatcher.add_batchMs]

theorem FrameBatcher.emitAll_spec :
    ∀ (n : Nat) (fb : FrameBatcher α), fb.buf.length ≤ n → 0 < fb.target →
    (∀ c ∈ fb.emitAll.1, c.length = fb.target) ∧
    fb.emitAll.2.buf.length < fb.target ∧
    fb.emitAll.1.flatten ++ fb.emitAll.2.buf = fb.buf ∧
    fb.emitAll.2.batchMs = fb.batchMs := by
  intro n
  induction n with
  | zero =>
    intro fb hlen ht
    have hcond : ¬ (0 < fb.target ∧ fb.target ≤ fb.buf.length) := by omega
    rw [FrameBatcher.emitAll, dif_neg hcond]
    refine ⟨by simp, ?_, by simp, rfl⟩
    show fb.buf.length < fb.target
    omega
  | succ n ih =>
    intro fb hlen ht
    by_cases h : 0 < fb.target ∧ fb.target ≤ fb.buf.length
    · rw [FrameBatcher.emitAll]
      simp only [dif_pos h]
      obtain ⟨ht0, hle⟩ := h
      have hrec := ih { fb with buf := fb.buf.drop fb.target }
        (by simp [List.length_drop]; omega)
        (by simpa [FrameBatcher.target] using ht)
      obtain ⟨h1, h2, h3, h4⟩ := hrec
      refine ⟨?_, h2, ?_, h4⟩
      · intro c hc
        rcases List.mem_cons.mp hc with rfl | hc'
        · simp [List.length_take]; omega
        · exact h1 c hc'
      · show fb.buf.take fb.target ++ _ ++ _ = fb.buf
        rw [List.append_assoc, h3]
        exact List.take_append_drop _ _
    · rw [FrameBatcher.emitAll, dif_neg h]
      refine ⟨by simp, ?_, by simp, rfl⟩
      show fb.buf.length < fb.target
      omega

/-! ### Claim C8: ring buffer bound -/

/-- C8: the ring-buffer hard-cap bound as claimed fails for constructor
parameters with `capacity_ms > hard_cap_ms`: pushing 26 frames into
`RingBuffer(600, 500, 20)` leaves 26 stored frames, exceeding
`hard_cap_ms / frame_ms = 25`, because `hard_cap_frames` is
`max(capacity_frames, hard_cap_ms // frame_ms) = 30`. -/
theorem ringBuffer_hard_cap_counterexample :
    ((RingBuffer.create Nat 600 500 20).pushAll (List.range 26)).q.length = 26 ∧
    ¬ ((RingBuffer.create Nat 600 500 20).pushAll (List.range 26)).q.length ≤ 500 / 20 := by
  constructor <;> decide

/-- C8 (amended): whenever `capacity_ms ≤ hard_cap_ms` and
`0 < frame_ms ≤ hard_cap_ms` (as with the defaults 300/500/20), the number of
stored frames never exceeds `hard_cap_ms / frame_ms` for any sequence of
pushes from a fresh buffer, and each push keeps a suffix of the old frames
plus the new one, i.e. only the oldest frames are evicted. -/
theorem ringBuffer_hard_cap (capacityMs hardCapMs frameMs : Nat) (fs : List Nat)
    (hcap : capacityMs ≤ hardCapMs) (hf0 : 0 < frameMs) (hf : frameMs ≤ hardCapMs) :
    ((RingBuffer.create Nat capacityMs hardCapMs frameMs).pushAll fs).q.length ≤
      hardCapMs / frameMs ∧
    ∀ (b : RingBuffer Nat) (f : Nat), (b.push f).q.IsSuffix (b.q ++ [f]) := by
  constructor
  · have h := RingBuffer.pushAll_le fs (RingBuffer.create Nat capacityMs hardCapMs frameMs)
    have hc : (RingBuffer.create Nat capacityMs hardCapMs frameMs).hardCapFrames =
        max (max 1 (capacityMs / frameMs)) (hardCapMs / frameMs) := rfl
    have hq : (RingBuffer.create Nat capacityMs hardCapMs frameMs).q.length = 0 := rfl
    have h1 : 1 ≤ hardCapMs / frameMs := (Nat.one_le_div_iff hf0).mpr hf
    have h2 : capacityMs / frameMs ≤ hardCapMs / frameMs := Nat.div_le_div_right hcap
    rw [hc, hq] at h
    omega
  · exact fun b f => RingBuffer.push_suffix b f

/-- C8 witness: the amended bound evaluated at the default parameters
`RingBuffer(300, 500, 20)` with 40 pushed frames. -/
theorem ringBuffer_hard_cap_witness :
    ((RingBuffer.create Nat 300 500 20).pushAll (List.range 40)).q.length ≤ 500 / 20 ∧
    ∀ (b : RingBuffer Nat) (f : Nat), (b.push f).q.IsSuffix (b.q ++ [f]) :=
  ringBuffer_hard_cap 300 500 20 (List.range 40) (by decide) (by decide) (by decide)

/-! ### Claim C9: frame batcher round-trip -/

/-- C9 property at given constructor argument and `add` inputs: `flush`
returns exactly the concatenation of the inputs (nothing when that is
empty), and repeated `emit_ready` yields chunks of exactly
`batch_ms * 32` bytes until the residue is smaller, at which point it
returns nothing. -/
def batcherOf (batchMs : Nat) (chunks : List (List Nat)) : FrameBatcher Nat :=
  (FrameBatcher.create Nat batchMs).addAll chunks

/-- C9 property at given constructor argument and `add` inputs. -/
def frameBatcherClaim (batchMs : Nat) (chunks : List (List Nat)) : Prop :=
  ((batcherOf batchMs chunks).flush.1.getD [] = chunks.flatten) ∧
  (chunks.flatten ≠ [] → (batcherOf batchMs chunks).flush.1 = some chunks.flatten) ∧
  (∀ c ∈ (batcherOf batchMs chunks).emitAll.1, c.length = batchMs * 32) ∧
  (batcherOf batchMs chunks).emitAll.2.buf.length < batchMs * 32 ∧
  (batcherOf batchMs chunks).emitAll.1.flatten ++ (batcherOf batchMs chunks).emitAll.2.buf =
    chunks.flatten ∧
  (batcherOf batchMs chunks).emitAll.2.emitReady.1 = none

/-- C9: for every positive `batch_ms` and every sequence of `add` calls on a
fresh batcher, `flush` returns exactly the concatenation of the added byte
strings, and repeated `emit_ready` returns chunks of exactly `batch_ms * 32`
bytes until the residue is smaller, returning nothing from then on. -/
theorem frameBatcher_roundtrip (batchMs : Nat) (chunks : List (List Nat))
    (hb : 0 < batchMs) : frameBatcherClaim batchMs chunks := by
  unfold frameBatcherClaim
  set fb := batcherOf batchMs chunks with hfb
  have hbuf' : fb.buf = chunks.flatten := by
    simpa [FrameBatcher.create] using
      FrameBatcher.addAll_buf chunks (FrameBatcher.create Nat batchMs)
  have hms' : fb.batchMs = batchMs := by
    simpa [FrameBatcher.create] using
      FrameBatcher.addAll_batchMs chunks (FrameBatcher.create Nat batchMs)
  have htgt : fb.target = batchMs * 32 := by
    rw [FrameBatcher.target, hms']; rfl
  have ht0 : 0 < fb.target := by omega
  obtain ⟨h1, h2, h3, h4⟩ := FrameBatcher.emitAll_spec fb.buf.length fb le_rfl ht0
  refine ⟨?_, ?_, ?_, ?_, ?_, ?_⟩
  · by_cases hE : fb.buf = []
    · have hjoin : chunks.flatten = [] := by rw [← hbuf', hE]
      have hEb : fb.buf.isEmpty = true := by simp [hE]
      rw [FrameBatcher.flush, if_pos hEb]
      simp [hjoin]
    · have hEb : ¬ (fb.buf.isEmpty = true) := by simp [hE]
      rw [FrameBatcher.flush, if_neg hEb]
      simp [hbuf']
  · intro hne
    have hE : ¬ fb.buf = [] := by rw [hbuf']; exact hne
    have hEb : ¬ (fb.buf.isEmpty = true) := by simp [hE]
    rw [FrameBatcher.flush, if_neg hEb]
    simp [hbuf']
  · intro c hc
    rw [← htgt]
    exact h1 c hc
  · rw [← htgt]; exact h2
  · rw [← hbuf']; exact h3
  · have hT : fb.emitAll.2.target = fb.target := by
      simp [FrameBatcher.target, h4]
    have hn : ¬ (fb.emitAll.2.target ≤ fb.emitAll.2.buf.length) := by omega
    rw [FrameBatcher.emitReady, if_neg hn]

/-- C9 witness: batch of 1 ms (target 32 bytes) with a single 40-byte `add`:
flush returns the 40 bytes; `emit_ready` yields one 32-byte chunk and then
nothing, leaving an 8-byte residue. -/
theorem frameBatcher_roundtrip_witness :
    0 < 1 ∧ frameBatcherClaim 1 [List.replicate 40 0] :=
  ⟨by decide, frameBatcher_roundtrip 1 [List.replicate 40 0] (by decide)⟩

/-! ### main.VADState: the VAD engine state machine -/

/-- VAD events returned by `VADState.process_frame` (the strings
`'start'` and `'end'` in the source). -/
inductive VADEvent where
  | start
  | end'
deriving DecidableEq, Repr

/-- Model of `main.VADState`: the fields that drive the transition logic.
`frame_ms`, `hangover_frames`, `max_utterance_ms`, `min_start_frames` and
`min_burst_frames` are configuration; `speaking`, `consec_speech`,
`non_speech` and `started_at_ms` evolve per frame. -/
structure VADState where
  frameMs : Nat
  hangoverFrames : Nat
  maxUtteranceMs : Nat
  speaking : Bool
  consecSpeech : Nat
  nonSpeech : Nat
  startedAtMs : Nat
  minStartFrames : Nat
  minBurstFrames : Nat
deriving DecidableEq, Repr

/-- Model of `VADState.process_frame`, as a function of the voicing
classification `is_speech` of the frame and the wall-clock `now_ms`.
Returns the emitted event (if any) and the updated state; the RMS
computation and logging in the source do not affect the transition. -/
def VADState.processFrame (s : VADState) (isSpeech : Bool) (nowMs : Nat) :
    Option VADEvent × VADState :=
  if ¬ s.speaking then
    if isSpeech then
      let cs := s.consecSpeech + 1
      if s.minStartFrames ≤ cs then
        (some .start,
          { s with speaking := true, consecSpeech := cs, startedAtMs := nowMs, nonSpeech := 0 })
      else (none, { s with consecSpeech := cs })
    else (none, { s with consecSpeech := 0 })
  else
    if s.maxUtteranceMs ≤ nowMs - s.startedAtMs then
      (some .end', { s with speaking := false, consecSpeech := 0, nonSpeech := 0 })
    else if isSpeech then
      (none, { s with nonSpeech := 0 })
    else
      let ns := s.nonSpeech + 1
      if s.hangoverFrames ≤ ns then
        if (nowMs - s.startedAtMs) / s.frameMs < s.minBurstFrames then
          (none, { s with speaking := false, consecSpeech := 0, nonSpeech := 0 })
        else
          (some .end', { s with speaking := false, consecSpeech := 0, nonSpeech := 0 })
      else (none, { s with nonSpeech := ns })

/-- C4 property of one `process_frame` transition at state `s`, voicing
`isSpeech` and clock `nowMs`. -/
def vadTransitionClaim (s : VADState) (isSpeech : Bool) (nowMs : Nat) : Prop :=
  (s.speaking = false →
    (((s.processFrame isSpeech nowMs).1 = some .start) ↔
      (isSpeech = true ∧ s.minStartFrames ≤ s.consecSpeech + 1)) ∧
    (isSpeech = true → (s.processFrame isSpeech nowMs).2.consecSpeech = s.consecSpeech + 1) ∧
    (isSpeech = false → (s.processFrame isSpeech nowMs).2.consecSpeech = 0) ∧
    ((s.processFrame isSpeech nowMs).1 = some .start →
      (s.processFrame isSpeech nowMs).2.speaking = true ∧
      (s.processFrame isSpeech nowMs).2.startedAtMs = nowMs ∧
      (s.processFrame isSpeech nowMs).2.nonSpeech = 0) ∧
    (s.processFrame isSpeech nowMs).1 ≠ some .end') ∧
  (s.speaking = true →
    (((s.processFrame isSpeech nowMs).1 = some .end') ↔
      (s.maxUtteranceMs ≤ nowMs - s.startedAtMs ∨
        (isSpeech = false ∧ s.hangoverFrames ≤ s.nonSpeech + 1 ∧
          s.minBurstFrames ≤ (nowMs - s.startedAtMs) / s.frameMs))) ∧
    ((s.processFrame isSpeech nowMs).1 = some .end' →
      (s.processFrame isSpeech nowMs).2.speaking = false) ∧
    (s.processFrame isSpeech nowMs).1 ≠ some .start)

/-- C4: the per-frame transition function of the VAD engine conforms to the
specified state machine.  From IDLE a voiced frame increments
`consec_speech` and `start` is emitted exactly when it reaches
`min_start_frames`, while an unvoiced frame resets `consec_speech`; from
SPEAKING, `end` (with transition to IDLE) is emitted exactly when either
`non_speech` reaches `hangover_frames` with at least `min_burst_frames`
elapsed frames, or `now - started_at` has reached `max_utterance_ms`
(forced end regardless of voicing). -/
theorem vad_process_frame_correct (s : VADState) (isSpeech : Bool) (nowMs : Nat) :
    vadTransitionClaim s isSpeech nowMs := by
  unfold vadTransitionClaim VADState.processFrame
  rcases s with ⟨frameMs, hang, maxUtt, speaking, cs, ns, st, minStart, minBurst⟩
  cases speaking <;> cases isSpeech <;> simp <;> split_ifs <;> simp_all

/-- C4 witness: a concrete IDLE state with `min_start_frames = 2` and one
prior voiced frame emits `start` on the next voiced frame, and a concrete
SPEAKING state at the hangover/burst boundary emits `end`. -/
theorem vad_process_frame_correct_witness :
    vadTransitionClaim
      { frameMs := 20, hangoverFrames := 20, maxUtteranceMs := 30000,
        speaking := false, consecSpeech := 1, nonSpeech := 0, startedAtMs := 0,
        minStartFrames := 2, minBurstFrames := 6 } true 1000 ∧
    vadTransitionClaim
      { frameMs := 20, hangoverFrames := 20, maxUtteranceMs := 30000,
        speaking := true, consecSpeech := 2, nonSpeech := 19, startedAtMs := 0,
        minStartFrames := 2, minBurstFrames := 6 } false 1000 :=
  ⟨vad_process_frame_correct _ true 1000, vad_process_frame_correct _ false 1000⟩

/-! ### main.VADManager.on_frame: the barge-in gate on a VAD start -/

/-- Python `round` (banker's rounding, half to even) on a rational. -/
def pythonRound (q : ℚ) : ℤ :=
  let f := ⌊q⌋
  let r := q - f
  if r < 1/2 then f
  else if 1/2 < r then f + 1
  else if f % 2 = 0 then f else f + 1

/-- Insertion into a sorted list, used to model Python `sorted`. -/
def insertSorted (x : ℚ) : List ℚ → List ℚ
  | [] => [x]
  | y :: ys => if x ≤ y then x :: y :: ys else y :: insertSorted x ys

/-- Model of Python `sorted` on rational RMS samples. -/
def sortedRats (l : List ℚ) : List ℚ := l.foldr insertSorted []

/-- The p90 index and lookup used in `on_frame`:
`k = max(0, min(len(vv)-1, int(round(0.9*(len(vv)-1)))))`, `p90 = vv[k]`. -/
def p90 (vals : List ℚ) : ℚ :=
  let vv := sortedRats vals
  let n : ℤ := vv.length
  let k : ℤ := max 0 (min (n - 1) (pythonRound ((9 : ℚ)/10 * ((n : ℚ) - 1))))
  vv.getD k.toNat 0

/-- Inputs to the barge-in gate evaluated by `VADManager.on_frame` when the
VAD engine emits `start`: the relevant session-state fields, configuration
and the per-frame quantities `now_ms` and `rms`. -/
structure GateInput where
  localStopEnabled : Bool
  speakingArmed : Bool
  speakingArmedTsMs : Int
  localStopGuardMs : Int
  localStopMinRms : ℚ
  ttsActive : Bool
  rmsSamples : List ℚ
  requireInterim : Bool
  sttLastInterimTsMs : Int
  sttLastInterimLen : Int
  interimWindowMs : Int
  minInterimLen : Int
  nowMs : Int
  rms : ℚ

/-- `guard_ok = (armed_ts > 0) and (now_ms - armed_ts >= guard_ms)`. -/
def guardOk (g : GateInput) : Bool :=
  (0 < g.speakingArmedTsMs) && (g.localStopGuardMs ≤ g.nowMs - g.speakingArmedTsMs)

/-- The dynamic ambient-relative threshold:
`min_rms` when TTS is inactive or no RMS samples exist, else
`max(min_rms, p90 * 1.5 + 200.0)`. -/
def dynThreshold (g : GateInput) : ℚ :=
  if g.ttsActive ∧ g.rmsSamples ≠ [] then
    max g.localStopMinRms (p90 g.rmsSamples * (3/2) + 200)
  else g.localStopMinRms

/-- `interim_ok`: checked only when interim agreement is required and TTS is
active; otherwise true. -/
def interimOk (g : GateInput) : Bool :=
  if g.requireInterim && g.ttsActive then
    (g.nowMs - g.sttLastInterimTsMs ≤ g.interimWindowMs) &&
      (g.minInterimLen ≤ g.sttLastInterimLen)
  else true

/-- The reasons reported in `vad_start_suppressed` events. -/
inductive SuppressReason where
  | guard
  | energy
  | interim
deriving DecidableEq, Repr

/-- Outcome of the gate: trigger the local stop, suppress with the first
failing reason, or do nothing (gates pass but the stop is disabled or the
bot is not armed). -/
inductive GateDecision where
  | triggered
  | suppressed (reason : SuppressReason)
  | silent
deriving DecidableEq, Repr

/-- The per-utterance VAD counters held in session state. -/
inductive CounterKind where
  | startsTotal
  | stopsAllowed
  | suppressedGuard
  | suppressedEnergy
  | suppressedMinframes
deriving DecidableEq, Repr

/-- Model of the gated-stop branch of `VADManager.on_frame` on a `start`
event: trigger when
`local_stop_enabled and speaking_armed and guard_ok and rms >= dyn_thresh and interim_ok`,
else report the first failing gate in the order guard, energy, interim. -/
def gateDecision (g : GateInput) : GateDecision :=
  if g.localStopEnabled && g.speakingArmed && guardOk g &&
      decide (dynThreshold g ≤ g.rms) && interimOk g then
    .triggered
  else if !(guardOk g) then .suppressed .guard
  else if g.rms < dynThreshold g then .suppressed .energy
  else if !(interimOk g) then .suppressed .interim
  else .silent

/-- The counter incremented by the gated-stop branch for each outcome.
Note the source increments `vad_suppressed_energy` for BOTH the `energy`
and the `interim` suppression reasons. -/
def counterBumped (g : GateInput) : Option CounterKind :=
  match gateDecision g with
  | .triggered => some .stopsAllowed
  | .suppressed .guard => some .suppressedGuard
  | .suppressed .energy => some .suppressedEnergy
  | .suppressed .interim => some .suppressedEnergy
  | .silent => none

/-! ### Claim C1: the barge-in safety gate -/

/-- C1 property at a given gate input: the dynamic threshold is never below
`local_stop_min_rms`, the stop triggers exactly when all five gate
conditions hold, and hence never with `guard_ok` false, never with
`rms < local_stop_min_rms`, and never while the bot is unarmed or within
`guard_ms` of the speaking-armed timestamp. -/
def bargeInGateClaim (g : GateInput) : Prop :=
  g.localStopMinRms ≤ dynThreshold g ∧
  (gateDecision g = .triggered ↔
    (g.localStopEnabled = true ∧ g.speakingArmed = true ∧ guardOk g = true ∧
      dynThreshold g ≤ g.rms ∧ interimOk g = true)) ∧
  (gateDecision g = .triggered →
    guardOk g = true ∧ g.localStopMinRms ≤ g.rms ∧
    0 < g.speakingArmedTsMs ∧ g.localStopGuardMs ≤ g.nowMs - g.speakingArmedTsMs)

/-- C1: on every VAD `start`, the TTS local-stop is signalled only if
`local_stop_enabled`, `speaking_armed`, `guard_ok`, `rms ≥ dyn_threshold`
(with `dyn_threshold ≥ local_stop_min_rms` always) and `interim_ok` all
hold; hence no stop with `guard_ok` false or `rms < local_stop_min_rms`,
and never before `guard_ms` has elapsed since the speaking-armed
timestamp. -/
theorem barge_in_gate_safety (g : GateInput) : bargeInGateClaim g := by
  unfold bargeInGateClaim
  have hdyn : g.localStopMinRms ≤ dynThreshold g := by
    unfold dynThreshold
    split
    · exact le_max_left _ _
    · exact le_rfl
  refine ⟨hdyn, ?_, ?_⟩
  · unfold gateDecision
    constructor
    · intro h
      split at h
      · rename_i hc
        simp only [Bool.and_eq_true, decide_eq_true_eq] at hc
        exact ⟨hc.1.1.1.1, hc.1.1.1.2, hc.1.1.2, hc.1.2, hc.2⟩
      · split at h <;> [skip; split at h] <;> [skip; skip; split at h] <;> simp_all
    · intro ⟨h1, h2, h3, h4, h5⟩
      have hc : (g.localStopEnabled && g.speakingArmed && guardOk g &&
          decide (dynThreshold g ≤ g.rms) && interimOk g) = true := by
        simp [h1, h2, h3, h4, h5]
      simp [hc]
  · intro ht
    unfold gateDecision at ht
    split at ht
    · rename_i hc
      simp only [Bool.and_eq_true, decide_eq_true_eq] at hc
      refine ⟨hc.1.1.2, le_trans hdyn hc.1.2, ?_, ?_⟩
      · have := hc.1.1.2
        unfold guardOk at this
        simp only [Bool.and_eq_true, decide_eq_true_eq] at this
        exact this.1
      · have := hc.1.1.2
        unfold guardOk at this
        simp only [Bool.and_eq_true, decide_eq_true_eq] at this
        exact this.2
    · split at ht <;> [skip; split at ht] <;> [skip; skip; split at ht] <;> simp_all

/-- C1 witness: a concrete armed input past the guard window with RMS above
the threshold and a fresh long interim triggers the stop, and the safety
consequences hold there. -/
theorem barge_in_gate_safety_witness :
    bargeInGateClaim
      { localStopEnabled := true, speakingArmed := true, speakingArmedTsMs := 1000,
        localStopGuardMs := 1200, localStopMinRms := 1200, ttsActive := true,
        rmsSamples := [], requireInterim := true, sttLastInterimTsMs := 2900,
        sttLastInterimLen := 15, interimWindowMs := 600, minInterimLen := 10,
        nowMs := 3000, rms := 2500 } :=
  barge_in_gate_safety _

/-! ### Claim C5: suppression order and counters -/

/-- C5 as stated fails on the counter side: with all gates passing except
the interim check, the reported reason is `interim` but the incremented
counter is `vad_suppressed_energy` — the same counter an `energy` failure
increments — because the source has no interim counter. -/
theorem suppression_counter_counterexample :
    gateDecision
      { localStopEnabled := true, speakingArmed := true, speakingArmedTsMs := 1,
        localStopGuardMs := 0, localStopMinRms := 1200, ttsActive := true,
        rmsSamples := [], requireInterim := true, sttLastInterimTsMs := 0,
        sttLastInterimLen := 0, interimWindowMs := 600, minInterimLen := 10,
        nowMs := 1000, rms := 5000 } = .suppressed .interim ∧
    counterBumped
      { localStopEnabled := true, speakingArmed := true, speakingArmedTsMs := 1,
        localStopGuardMs := 0, localStopMinRms := 1200, ttsActive := true,
        rmsSamples := [], requireInterim := true, sttLastInterimTsMs := 0,
        sttLastInterimLen := 0, interimWindowMs := 600, minInterimLen := 10,
        nowMs := 1000, rms := 5000 } = some .suppressedEnergy ∧
    counterBumped
      { localStopEnabled := true, speakingArmed := true, speakingArmedTsMs := 1,
        localStopGuardMs := 0, localStopMinRms := 1200, ttsActive := true,
        rmsSamples := [], requireInterim := true, sttLastInterimTsMs := 2900,
        sttLastInterimLen := 15, interimWindowMs := 600, minInterimLen := 10,
        nowMs := 3000, rms := 500 } = some .suppressedEnergy := by
  refine ⟨?_, ?_, ?_⟩ <;> decide

/-- C5 (amended) property at a gate input: suppressions are evaluated in
the order guard, energy, interim; only the first failing reason is
reported; a guard failure increments `vad_suppressed_guard` and an energy
failure increments `vad_suppressed_energy`, but an interim failure also
increments `vad_suppressed_energy` (there is no interim counter). -/
def suppressionOrderClaim (g : GateInput) : Prop :=
  (gateDecision g = .suppressed .guard ↔
    (gateDecision g ≠ .triggered ∧ guardOk g = false)) ∧
  (gateDecision g = .suppressed .energy ↔
    (gateDecision g ≠ .triggered ∧ guardOk g = true ∧ g.rms < dynThreshold g)) ∧
  (gateDecision g = .suppressed .interim ↔
    (gateDecision g ≠ .triggered ∧ guardOk g = true ∧ dynThreshold g ≤ g.rms ∧
      interimOk g = false)) ∧
  (counterBumped g = some .suppressedGuard ↔ gateDecision g = .suppressed .guard) ∧
  (counterBumped g = some .suppressedEnergy ↔
    (gateDecision g = .suppressed .energy ∨ gateDecision g = .suppressed .interim))

/-- C5 (amended): the gates are evaluated guard before energy before
interim and only the first failing reason is reported; the counter matches
the reason for guard and energy, while an interim failure increments the
energy counter. -/
theorem suppression_order (g : GateInput) : suppressionOrderClaim g := by
  unfold suppressionOrderClaim counterBumped gateDecision
  by_cases h1 : (g.localStopEnabled && g.speakingArmed && guardOk g &&
      decide (dynThreshold g ≤ g.rms) && interimOk g) = true
  · simp [h1]
  · simp only [h1]
    by_cases h2 : guardOk g = true
    · by_cases h3 : g.rms < dynThreshold g
      · simp [h1, h2, h3]
      · by_cases h4 : interimOk g = true
        · simp [h1, h2, h3, h4, not_lt.mp h3]
        · simp [h1, h2, h3, h4, not_lt.mp h3]
    · simp [h1, h2]

/-- C5 witness: the amended property at the interim-failure input used in
the counterexample. -/
theorem suppression_order_witness :
    suppressionOrderClaim
      { localStopEnabled := true, speakingArmed := true, speakingArmedTsMs := 1,
        localStopGuardMs := 0, localStopMinRms := 1200, ttsActive := true,
        rmsSamples := [], requireInterim := true, sttLastInterimTsMs := 0,
        sttLastInterimLen := 0, interimWindowMs := 600, minInterimLen := 10,
        nowMs := 1000, rms := 5000 } :=
  suppression_order _

/-! ### main.tts_streaming_play: the consumer loop and stop emission -/

/-- Observer events emitted by the TTS playback paths that matter to the
stop/first-audio contract.  `stopped` carries the reason string used in the
source and whether the payload contains `barge_in_ms`. -/
inductive TtsEvt where
  | firstFrameSent
  | firstAudio
  | stopped (reason : String) (hasBargeIn : Bool)
deriving DecidableEq, Repr

/-- Per-utterance context of a playback call: whether a `session_id` is
set, whether `last_vad_ts_ms > 0` (a VAD start occurred), and the value of
the `tts_stop_emitted` latch on entry. -/
structure ConsCfg where
  sessionPresent : Bool
  vadTsPos : Bool
  latch0 : Bool
deriving DecidableEq, Repr

/-- One iteration of the consumer loop, as seen from the queue and the
stop event: the external stop event becoming set, a 500 ms dequeue
timeout, the producer's completion sentinel, or a dequeued frame (with
whether the stop event fired during the pacing wait and whether the
transport send succeeded). -/
inductive ConsStep where
  | extStop
  | timeout
  | sentinel
  | frame (stopWake : Bool) (sendOk : Bool)
deriving DecidableEq, Repr

/-- Mutable state of one `tts_streaming_play` consumer invocation. -/
structure ConsState where
  stopSet : Bool
  latch : Bool
  completedNormally : Bool
  sentFrames : Nat
  firstAudioEmitted : Bool
  events : List TtsEvt
deriving DecidableEq, Repr

/-- Initial consumer state for a given context. -/
def consInit (cfg : ConsCfg) : ConsState :=
  { stopSet := false, latch := cfg.latch0, completedNormally := false,
    sentFrames := 0, firstAudioEmitted := false, events := [] }

/-- The guarded `tts_stopped` emission
(`if session_id and not state.get('tts_stop_emitted', False)`):
append the event and set the one-shot latch. -/
def emitStopped (cfg : ConsCfg) (s : ConsState) (reason : String) (barge : Bool) : ConsState :=
  if cfg.sessionPresent && !s.latch then
    { s with latch := true, events := s.events ++ [.stopped reason barge] }
  else s

/-- The successful-send bookkeeping of one consumer iteration:
increment `sent_frames`, log the first frame (which also arms
`speaking_armed` in the source), and emit `first_audio` at most once,
only when a `session_id` is present. -/
def frameUpdate (cfg : ConsCfg) (s : ConsState) : ConsState :=
  let ev1 := if s.sentFrames + 1 = 1 then s.events ++ [.firstFrameSent] else s.events
  if s.firstAudioEmitted then
    { s with sentFrames := s.sentFrames + 1, events := ev1 }
  else
    { s with
      sentFrames := s.sentFrames + 1
      firstAudioEmitted := true
      events := if cfg.sessionPresent then ev1 ++ [.firstAudio] else ev1 }

/-- Model of the consumer loop of `tts_streaming_play`: a dequeue timeout
emits `tts_stopped(buffer_underrun)` (with `barge_in_ms` whenever
`last_vad_ts_ms > 0`) and breaks; the sentinel marks normal completion and
breaks; a stop wake during pacing breaks; a transport send error sets the
stop event and breaks; a sent frame updates the state via `frameUpdate`. -/
def consLoop (cfg : ConsCfg) : ConsState → List ConsStep → ConsState
  | s, [] => s
  | s, step :: rest =>
    if s.stopSet then s
    else
      match step with
      | .extStop => consLoop cfg { s with stopSet := true } rest
      | .timeout => emitStopped cfg s "buffer_underrun" cfg.vadTsPos
      | .sentinel => { s with completedNormally := true }
      | .frame stopWake sendOk =>
        if stopWake then { s with stopSet := true }
        else if !sendOk then { s with stopSet := true }
        else consLoop cfg (frameUpdate cfg s) rest

theorem consLoop_cons (cfg : ConsCfg) (s : ConsState) (step : ConsStep)
    (rest : List ConsStep) :
    consLoop cfg s (step :: rest) =
      if s.stopSet then s
      else
        match step with
        | .extStop => consLoop cfg { s with stopSet := true } rest
        | .timeout => emitStopped cfg s "buffer_underrun" cfg.vadTsPos
        | .sentinel => { s with completedNormally := true }
        | .frame stopWake sendOk =>
          if stopWake then { s with stopSet := true }
          else if !sendOk then { s with stopSet := true }
          else consLoop cfg (frameUpdate cfg s) rest := rfl

/-- The post-loop `tts_stopped` emission of `tts_streaming_play`: reason
`completed` on normal completion, else `interrupted` when the stop event is
set, else `unknown`; `barge_in_ms` is attached iff the reason is
`interrupted` and `last_vad_ts_ms > 0`. -/
def consFinal (cfg : ConsCfg) (s : ConsState) : ConsState :=
  let reason := if s.completedNormally then "completed"
    else if s.stopSet then "interrupted" else "unknown"
  emitStopped cfg s reason (decide (reason = "interrupted") && cfg.vadTsPos)

/-- One full consumer invocation: loop then final emission. -/
def runConsumer (cfg : ConsCfg) (steps : List ConsStep) : ConsState :=
  consFinal cfg (consLoop cfg (consInit cfg) steps)

/-- The post-loop `tts_stopped` emission of the non-streaming
`playback_task`: reason `interrupted` iff the stop event is set at loop
exit, else `completed`; `barge_in_ms` iff interrupted and
`last_vad_ts_ms > 0`; guarded by the same latch. -/
def playbackEmit (cfg : ConsCfg) (stopSetAtEnd : Bool) : List TtsEvt :=
  let reason := if stopSetAtEnd then "interrupted" else "completed"
  if cfg.sessionPresent && !cfg.latch0 then
    [.stopped reason (decide (reason = "interrupted") && cfg.vadTsPos)]
  else []

/-- Recognizer for `tts_stopped` events. -/
def isStoppedEvt : TtsEvt → Bool
  | .stopped _ _ => true
  | _ => false

/-- Recognizer for `tts_first_audio` events. -/
def isFirstAudioEvt : TtsEvt → Bool
  | .firstAudio => true
  | _ => false

/-- Every event either path can append: `tts_stopped` reasons are among the
four documented strings and `barge_in_ms` is present exactly when a VAD
start occurred and the reason is `interrupted` or `buffer_underrun`. -/
def evtOk (cfg : ConsCfg) : TtsEvt → Prop
  | .firstFrameSent => True
  | .firstAudio => True
  | .stopped r b =>
      (r = "completed" ∨ r = "interrupted" ∨ r = "buffer_underrun" ∨ r = "unknown") ∧
      b = (cfg.vadTsPos && (decide (r = "interrupted") || decide (r = "buffer_underrun")))

/-- Count of `tts_stopped` events in a trace. -/
def countStopped (evs : List TtsEvt) : Nat := evs.countP (fun e => isStoppedEvt e)

/-- Count of `tts_first_audio` events in a trace. -/
def countFirstAudio (evs : List TtsEvt) : Nat := evs.countP (fun e => isFirstAudioEvt e)

/-- The latch/counter invariant carried through the consumer. -/
def consInv (s : ConsState) : Prop :=
  (s.latch = false → countStopped s.events = 0) ∧
  countStopped s.events ≤ 1 ∧
  (s.firstAudioEmitted = false → countFirstAudio s.events = 0) ∧
  countFirstAudio s.events ≤ 1

theorem countStopped_append (l1 l2 : List TtsEvt) :
    countStopped (l1 ++ l2) = countStopped l1 + countStopped l2 := by
  simp [countStopped, List.countP_append]

theorem countFirstAudio_append (l1 l2 : List TtsEvt) :
    countFirstAudio (l1 ++ l2) = countFirstAudio l1 + countFirstAudio l2 := by
  simp [countFirstAudio, List.countP_append]

theorem countStopped_stopped (r : String) (b : Bool) :
    countStopped [.stopped r b] = 1 := rfl

theorem countFirstAudio_stopped (r : String) (b : Bool) :
    countFirstAudio [.stopped r b] = 0 := rfl

theorem countStopped_firstAudio : countStopped [.firstAudio] = 0 := rfl

theorem countFirstAudio_firstAudio : countFirstAudio [.firstAudio] = 1 := rfl

theorem countStopped_firstFrame : countStopped [.firstFrameSent] = 0 := rfl

theorem countFirstAudio_firstFrame : countFirstAudio [.firstFrameSent] = 0 := rfl

theorem emitStopped_inv (cfg : ConsCfg) (s : ConsState) (r : String) (b : Bool)
    (h : consInv s) : consInv (emitStopped cfg s r b) := by
  obtain ⟨h1, h2, h3, h4⟩ := h
  unfold emitStopped
  split
  · rename_i hc
    simp only [Bool.and_eq_true, Bool.not_eq_true'] at hc
    have h0 : countStopped s.events = 0 := h1 hc.2
    refine ⟨?_, ?_, ?_, ?_⟩
    · intro hl
      simp at hl
    · show countStopped (s.events ++ [.stopped r b]) ≤ 1
      rw [countStopped_append, h0, countStopped_stopped]
    · intro hfa
      show countFirstAudio (s.events ++ [.stopped r b]) = 0
      rw [countFirstAudio_append, h3 hfa, countFirstAudio_stopped]
    · show countFirstAudio (s.events ++ [.stopped r b]) ≤ 1
      rw [countFirstAudio_append, countFirstAudio_stopped]
      omega
  · exact ⟨h1, h2, h3, h4⟩

theorem emitStopped_evtOk (cfg : ConsCfg) (s : ConsState) (r : String) (b : Bool)
    (hr : r = "completed" ∨ r = "interrupted" ∨ r = "buffer_underrun" ∨ r = "unknown")
    (hb : b = (cfg.vadTsPos && (decide (r = "interrupted") || decide (r = "buffer_underrun"))))
    (h : ∀ e ∈ s.events, evtOk cfg e) :
    ∀ e ∈ (emitStopped cfg s r b).events, evtOk cfg e := by
  unfold emitStopped
  split
  · intro e he
    simp only [List.mem_append, List.mem_singleton] at he
    rcases he with he | rfl
    · exact h e he
    · exact ⟨hr, hb⟩
  · exact h

theorem frameUpdate_inv (cfg : ConsCfg) (s : ConsState) (h : consInv s) :
    consInv (frameUpdate cfg s) := by
  obtain ⟨h1, h2, h3, h4⟩ := h
  have hs1 : countStopped
      (if s.sentFrames + 1 = 1 then s.events ++ [TtsEvt.firstFrameSent] else s.events) =
      countStopped s.events := by
    split
    · rw [countStopped_append, countStopped_firstFrame]
      omega
    · rfl
  have hf1 : countFirstAudio
      (if s.sentFrames + 1 = 1 then s.events ++ [TtsEvt.firstFrameSent] else s.events) =
      countFirstAudio s.events := by
    split
    · rw [countFirstAudio_append, countFirstAudio_firstFrame]
      omega
    · rfl
  simp only [frameUpdate]
  by_cases hfa : s.firstAudioEmitted = true
  · rw [if_pos hfa]
    exact ⟨fun hl => by rw [hs1]; exact h1 hl, by rw [hs1]; exact h2,
      fun hfe => by rw [hf1]; exact h3 hfe, by rw [hf1]; exact h4⟩
  · rw [if_neg hfa]
    have h30 : countFirstAudio s.events = 0 := h3 (Bool.not_eq_true _ ▸ (by simpa using hfa))
    refine ⟨?_, ?_, ?_, ?_⟩
    · intro hl
      show countStopped (if cfg.sessionPresent then _ ++ [TtsEvt.firstAudio] else _) = 0
      split
      · rw [countStopped_append, countStopped_firstAudio, hs1]
        simpa using h1 hl
      · rw [hs1]; exact h1 hl
    · show countStopped (if cfg.sessionPresent then _ ++ [TtsEvt.firstAudio] else _) ≤ 1
      split
      · rw [countStopped_append, countStopped_firstAudio, hs1]
        simpa using h2
      · rw [hs1]; exact h2
    · intro hfe
      simp at hfe
    · show countFirstAudio (if cfg.sessionPresent then _ ++ [TtsEvt.firstAudio] else _) ≤ 1
      split
      · rw [countFirstAudio_append, countFirstAudio_firstAudio, hf1, h30]
      · rw [hf1, h30]
        omega

theorem frameUpdate_evtOk (cfg : ConsCfg) (s : ConsState)
    (h : ∀ e ∈ s.events, evtOk cfg e) :
    ∀ e ∈ (frameUpdate cfg s).events, evtOk cfg e := by
  have hev1 : ∀ e ∈ (if s.sentFrames + 1 = 1 then s.events ++ [TtsEvt.firstFrameSent]
      else s.events), evtOk cfg e := by
    split
    · intro e he
      rcases List.mem_append.mp he with he | he
      · exact h e he
      · rw [List.mem_singleton] at he
        subst he
        trivial
    · exact h
  simp only [frameUpdate]
  by_cases hfa : s.firstAudioEmitted = true
  · rw [if_pos hfa]
    exact hev1
  · rw [if_neg hfa]
    intro e he
    revert he
    show e ∈ (if cfg.sessionPresent then _ ++ [TtsEvt.firstAudio] else _) → _
    split
    · intro he
      rcases List.mem_append.mp he with he | he
      · exact hev1 e he
      · rw [List.mem_singleton] at he
        subst he
        trivial
    · exact fun he => hev1 e he

theorem consLoop_inv (cfg : ConsCfg) (steps : List ConsStep) :
    ∀ (s : ConsState), consInv s → consInv (consLoop cfg s steps) := by
  induction steps with
  | nil => intro s h; exact h
  | cons step rest ih =>
    intro s h
    rw [consLoop_cons]
    by_cases hs : s.stopSet = true
    · rw [if_pos hs]; exact h
    · rw [if_neg hs]
      cases step with
      | extStop => exact ih _ h
      | timeout => exact emitStopped_inv cfg s "buffer_underrun" cfg.vadTsPos h
      | sentinel => exact h
      | frame stopWake sendOk =>
        cases stopWake with
        | true => exact h
        | false =>
          cases sendOk with
          | false => exact h
          | true => exact ih _ (frameUpdate_inv cfg s h)

theorem consLoop_evtOk (cfg : ConsCfg) (steps : List ConsStep) :
    ∀ (s : ConsState), (∀ e ∈ s.events, evtOk cfg e) →
    ∀ e ∈ (consLoop cfg s steps).events, evtOk cfg e := by
  induction steps with
  | nil => intro s h; exact h
  | cons step rest ih =>
    intro s h
    rw [consLoop_cons]
    by_cases hs : s.stopSet = true
    · rw [if_pos hs]; exact h
    · rw [if_neg hs]
      cases step with
      | extStop => exact ih _ h
      | timeout => exact emitStopped_evtOk cfg s _ _ (by simp) (by simp) h
      | sentinel => exact h
      | frame stopWake sendOk =>
        cases stopWake with
        | true => exact h
        | false =>
          cases sendOk with
          | false => exact h
          | true => exact ih _ (frameUpdate_evtOk cfg s h)

theorem consFinal_inv (cfg : ConsCfg) (s : ConsState) (h : consInv s) :
    consInv (consFinal cfg s) :=
  emitStopped_inv cfg s _ _ h

theorem consFinal_evtOk (cfg : ConsCfg) (s : ConsState)
    (h : ∀ e ∈ s.events, evtOk cfg e) :
    ∀ e ∈ (consFinal cfg s).events, evtOk cfg e := by
  unfold consFinal
  refine emitStopped_evtOk cfg s _ _ ?_ ?_ h
  · split
    · left; rfl
    · split
      · right; left; rfl
      · right; right; right; rfl
  · split
    · simp
    · cases hstop : s.stopSet <;> simp [Bool.and_comm]

/-! ### Claim C2: one stop per utterance, valid reasons, one first-audio -/

/-- C2 property for a given playback context, consumer schedule and
fallback-loop outcome. -/
def ttsStopOnceClaim (cfg : ConsCfg) (steps : List ConsStep) (stopSetAtEnd : Bool) : Prop :=
  countStopped (runConsumer cfg steps).events ≤ 1 ∧
  (∀ r b, TtsEvt.stopped r b ∈ (runConsumer cfg steps).events →
    r = "completed" ∨ r = "interrupted" ∨ r = "buffer_underrun" ∨ r = "unknown") ∧
  countFirstAudio (runConsumer cfg steps).events ≤ 1 ∧
  countStopped (playbackEmit cfg stopSetAtEnd) ≤ 1 ∧
  (∀ r b, TtsEvt.stopped r b ∈ playbackEmit cfg stopSetAtEnd →
    r = "completed" ∨ r = "interrupted")

/-- C2: in both the streaming consumer path and the fetch-then-play
fallback, at most one `tts_stopped` is emitted per utterance (enforced by
the set-once `tts_stop_emitted` latch), its reason is one of `completed`,
`interrupted`, `buffer_underrun`, `unknown`, and `first_audio` is emitted
at most once. -/
theorem tts_stop_once (cfg : ConsCfg) (steps : List ConsStep) (stopSetAtEnd : Bool) :
    ttsStopOnceClaim cfg steps stopSetAtEnd := by
  have hinv0 : consInv (consInit cfg) := by
    unfold consInv consInit countStopped countFirstAudio
    simp
  have hinv := consFinal_inv cfg _ (consLoop_inv cfg steps _ hinv0)
  have hok0 : ∀ e ∈ (consInit cfg).events, evtOk cfg e := by
    unfold consInit; simp
  have hok := consFinal_evtOk cfg _ (consLoop_evtOk cfg steps _ hok0)
  unfold consInv at hinv
  refine ⟨hinv.2.1, ?_, hinv.2.2.2, ?_, ?_⟩
  · intro r b hmem
    have := hok _ hmem
    exact this.1
  · unfold playbackEmit countStopped
    repeat' split
    all_goals simp [isStoppedEvt]
  · intro r b hmem
    unfold playbackEmit at hmem
    repeat' split at hmem
    all_goals simp_all

/-- C2 witness: a schedule that sends two frames and then completes
normally, in a context with a session id, a prior VAD start and a clear
latch, together with an un-stopped fallback run. -/
theorem tts_stop_once_witness :
    ttsStopOnceClaim { sessionPresent := true, vadTsPos := true, latch0 := false }
      [.frame false true, .frame false true, .sentinel] false :=
  tts_stop_once _ _ _

/-! ### Claim C3: when the stop payload carries barge_in_ms -/

/-- C3 as stated is false: the streaming path's underrun emission attaches
`barge_in_ms` whenever `last_vad_ts_ms > 0`, with reason
`buffer_underrun`.  A single dequeue timeout in a session with a prior
VAD start yields `tts_stopped(buffer_underrun)` carrying `barge_in_ms`. -/
theorem barge_in_ms_counterexample :
    (runConsumer { sessionPresent := true, vadTsPos := true, latch0 := false }
      [.timeout]).events = [.stopped "buffer_underrun" true] := by
  decide

/-- C3 (amended) property: in every trace of the streaming consumer and of
the fallback loop, a `tts_stopped` payload carries `barge_in_ms` iff a VAD
start occurred during the utterance and the reason is `interrupted` or —
in the streaming underrun emission only — `buffer_underrun`; `completed`
and `unknown` stops never carry it. -/
def bargeInFieldClaim (cfg : ConsCfg) (steps : List ConsStep) (stopSetAtEnd : Bool) : Prop :=
  (∀ r b, TtsEvt.stopped r b ∈ (runConsumer cfg steps).events →
    (b = true ↔ (cfg.vadTsPos = true ∧ (r = "interrupted" ∨ r = "buffer_underrun")))) ∧
  (∀ r b, TtsEvt.stopped r b ∈ playbackEmit cfg stopSetAtEnd →
    (b = true ↔ (cfg.vadTsPos = true ∧ r = "interrupted")))

/-- C3 (amended): `barge_in_ms` appears in a `tts_stopped` payload iff a
VAD start occurred and the reason is `interrupted`, except that the
streaming underrun emission also attaches it (reason `buffer_underrun`);
`completed` and `unknown` stops never carry it, and the fallback path
attaches it only for `interrupted`. -/
theorem barge_in_ms_field (cfg : ConsCfg) (steps : List ConsStep) (stopSetAtEnd : Bool) :
    bargeInFieldClaim cfg steps stopSetAtEnd := by
  have hok0 : ∀ e ∈ (consInit cfg).events, evtOk cfg e := by
    unfold consInit; simp
  have hok := consFinal_evtOk cfg _ (consLoop_evtOk cfg steps _ hok0)
  constructor
  · intro r b hmem
    have h := (hok _ hmem).2
    subst h
    constructor
    · intro hb
      simp only [Bool.and_eq_true, Bool.or_eq_true, decide_eq_true_eq] at hb
      exact ⟨hb.1, hb.2⟩
    · intro ⟨h1, h2⟩
      rcases h2 with h2 | h2 <;> simp [h1, h2]
  · intro r b hmem
    unfold playbackEmit at hmem
    split at hmem <;> simp at hmem <;> simp_all

/-- C3 witness: the amended iff at a schedule with an external stop after
one sent frame (an interrupted utterance with a prior VAD start). -/
theorem barge_in_ms_field_witness :
    bargeInFieldClaim { sessionPresent := true, vadTsPos := true, latch0 := false }
      [.frame false true, .extStop, .frame false true] true :=
  barge_in_ms_field _ _ _

/-! ### Frame slicing: the TTS producer and the fallback playback loop -/

/-- 20 ms of 48 kHz mono PCM16: `int(48000 * 0.02) * 2 = 1920` bytes. -/
def frameBytes48k : Nat := 1920

/-- Model of `main.slice_frames`: remove `frame_bytes`-sized chunks from
the front of the buffer while enough bytes remain; return the complete
frames in order together with the remaining buffer. -/
def sliceFrames (fb : Nat) (buf : List α) : List (List α) × List α :=
  if _h : 0 < fb ∧ fb ≤ buf.length then
    let rest := sliceFrames fb (buf.drop fb)
    (buf.take fb :: rest.1, rest.2)
  else ([], buf)
termination_by buf.length
decreasing_by simp; omega

theorem sliceFrames_frames_length (fb : Nat) :
    ∀ (n : Nat) (buf : List α), buf.length ≤ n →
    ∀ f ∈ (sliceFrames fb buf).1, f.length = fb := by
  intro n
  induction n with
  | zero =>
    intro buf hlen f hf
    have hcond : ¬ (0 < fb ∧ fb ≤ buf.length) := by omega
    rw [sliceFrames, dif_neg hcond] at hf
    simp at hf
  | succ n ih =>
    intro buf hlen f hf
    by_cases h : 0 < fb ∧ fb ≤ buf.length
    · rw [sliceFrames] at hf
      simp only [dif_pos h] at hf
      rcases List.mem_cons.mp hf with rfl | hf'
      · simp [List.length_take]
        omega
      · exact ih (buf.drop fb) (by simp [List.length_drop]; omega) f hf'
    · rw [sliceFrames, dif_neg h] at hf
      simp at hf

/-- Running state of the blocking producer
`_producer_stream_elevenlabs`: the unaligned raw byte buffer, the aligned
PCM buffer, and the frames enqueued so far. -/
structure ProducerState (α : Type) where
  rawBuf : List α
  outBuf : List α
  frames : List (List α)

/-- One HTTP chunk iteration of the producer: skip empty chunks; append
to the raw buffer; carve off the 2-byte-aligned part (skip when none);
extend the PCM buffer and enqueue every complete 1920-byte frame. -/
def producerStep (st : ProducerState α) (chunk : List α) : ProducerState α :=
  if chunk.isEmpty then st
  else
    let rawBuf := st.rawBuf ++ chunk
    let alignedLen := rawBuf.length / 2 * 2
    if alignedLen = 0 then { st with rawBuf := rawBuf }
    else
      let aligned := rawBuf.take alignedLen
      let rawRest := rawBuf.drop alignedLen
      let outBuf := st.outBuf ++ aligned
      let sl := sliceFrames frameBytes48k outBuf
      { rawBuf := rawRest, outBuf := sl.2, frames := st.frames ++ sl.1 }

/-- The frames the producer enqueues for a given sequence of HTTP chunks
(every queue element except the final `None` sentinel). -/
def producerFrames (chunks : List (List α)) : List (List α) :=
  (chunks.foldl producerStep ⟨[], [], []⟩).frames

theorem producerStep_frames (st : ProducerState α) (chunk : List α)
    (h : ∀ f ∈ st.frames, f.length = frameBytes48k) :
    ∀ f ∈ (producerStep st chunk).frames, f.length = frameBytes48k := by
  unfold producerStep
  split
  · exact h
  · dsimp only
    split
    · exact h
    · intro f hf
      simp only [List.mem_append] at hf
      rcases hf with hf | hf
      · exact h f hf
      · exact sliceFrames_frames_length frameBytes48k _ _ le_rfl f hf

theorem producerFoldl_length (chunks : List (List α)) :
    ∀ (st : ProducerState α), (∀ f ∈ st.frames, f.length = frameBytes48k) →
    ∀ f ∈ (chunks.foldl producerStep st).frames, f.length = frameBytes48k := by
  induction chunks with
  | nil => intro st h; exact h
  | cons c cs ih =>
    intro st h
    exact ih _ (producerStep_frames st c h)

theorem producerFrames_length (chunks : List (List α)) :
    ∀ f ∈ producerFrames chunks, f.length = frameBytes48k := by
  unfold producerFrames
  exact producerFoldl_length chunks ⟨[], [], []⟩ (by simp)

/-- Model of the slicing loop of `main.playback_task`: while audio
remains, publish `chunk = pcm[pos : pos + bytes_per_frame]` and advance;
the final published chunk may be shorter than `bytes_per_frame`.  A zero
frame size publishes nothing (the empty chunk breaks the loop). -/
def chunksOf (fb : Nat) (l : List α) : List (List α) :=
  if _h : l.isEmpty ∨ fb = 0 then [] else l.take fb :: chunksOf fb (l.drop fb)
termination_by l.length
decreasing_by
  simp only [not_or, List.isEmpty_iff] at _h
  have := List.length_pos.mpr _h.1
  simp
  omega

theorem chunksOf_nil (fb : Nat) : chunksOf fb ([] : List α) = [] := by
  rw [chunksOf]
  simp

theorem chunksOf_spec (fb : Nat) (hfb : 0 < fb) :
    ∀ (n : Nat) (l : List α), l.length ≤ n →
    (chunksOf fb l).flatten = l ∧
    (∀ f ∈ chunksOf fb l, 0 < f.length ∧ f.length ≤ fb) ∧
    (∀ f ∈ (chunksOf fb l).dropLast, f.length = fb) := by
  intro n
  induction n with
  | zero =>
    intro l hlen
    have hl : l = [] := List.length_eq_zero.mp (by omega)
    subst hl
    rw [chunksOf_nil]
    simp
  | succ n ih =>
    intro l hlen
    by_cases hl : l = []
    · subst hl
      rw [chunksOf_nil]
      simp
    · have hcond : ¬ (l.isEmpty = true ∨ fb = 0) := by
        simp [hl]
        omega
      rw [chunksOf, dif_neg hcond]
      have hpos : 0 < l.length := List.length_pos.mpr hl
      obtain ⟨ih1, ih2, ih3⟩ := ih (l.drop fb) (by simp; omega)
      refine ⟨?_, ?_, ?_⟩
      · rw [List.flatten_cons, ih1]
        exact List.take_append_drop _ _
      · intro f hf
        rcases List.mem_cons.mp hf with rfl | hf'
        · constructor
          · simp
            omega
          · simp
        · exact ih2 f hf'
      · by_cases hr : chunksOf fb (l.drop fb) = []
        · rw [hr]
          simp
        · rw [List.dropLast_cons_of_ne_nil hr]
          intro f hf
          rcases List.mem_cons.mp hf with rfl | hf'
          · have hd : l.drop fb ≠ [] := by
              intro hdd
              apply hr
              rw [hdd, chunksOf_nil]
            have hlt : fb < l.length := by
              have := List.length_pos.mpr hd
              simp at this
              omega
            simp
            omega
          · exact ih3 f hf'

/-! ### Claim C6: published frame sizes -/

/-- C6 as stated fails on the fallback path: `playback_task` publishes the
final slice even when shorter than 1920 bytes.  A 2-byte PCM buffer is
published as a single 2-byte frame. -/
theorem frame_size_counterexample :
    (chunksOf 1920 [0, 0] : List (List Nat)).map List.length = [2] ∧ (2 : Nat) ≠ 1920 := by
  constructor
  · rw [chunksOf, dif_neg (by simp)]
    rw [show List.drop 1920 [0, 0] = ([] : List Nat) by simp, chunksOf_nil]
    simp
  · decide

/-- C6 (amended) property for a producer chunk sequence and a fallback PCM
buffer: every frame the streaming producer enqueues (and the consumer then
publishes verbatim) is exactly 1920 bytes; the fallback loop publishes
non-empty frames of at most 1920 bytes that partition the PCM buffer, all
of them exactly 1920 bytes except possibly the final one. -/
def frameSizeClaim (chunks : List (List Nat)) (pcm : List Nat) : Prop :=
  (∀ f ∈ producerFrames chunks, f.length = 1920) ∧
  (∀ f ∈ chunksOf 1920 pcm, 0 < f.length ∧ f.length ≤ 1920) ∧
  (∀ f ∈ (chunksOf 1920 pcm).dropLast, f.length = 1920) ∧
  (chunksOf 1920 pcm).flatten = pcm

/-- C6 (amended): frames on the streaming path are exactly 1920 bytes
(the producer only enqueues complete frames); fallback-path frames are
non-empty, at most 1920 bytes, and all but possibly the last are exactly
1920 bytes — the last is shorter exactly when the decoded PCM length is
not a multiple of 1920. -/
theorem frame_sizes (chunks : List (List Nat)) (pcm : List Nat) :
    frameSizeClaim chunks pcm := by
  obtain ⟨h1, h2, h3⟩ := chunksOf_spec 1920 (by omega) pcm.length pcm le_rfl
  exact ⟨producerFrames_length chunks, h2, h3, h1⟩

/-- C6 witness: the amended property at a concrete producer chunk stream
(one 3841-byte chunk: two full frames plus a 1-byte residue) and a
concrete 3000-byte fallback buffer (one full frame and one 1080-byte final
frame). -/
theorem frame_sizes_witness :
    frameSizeClaim [List.replicate 3841 0] (List.replicate 3000 0) :=
  frame_sizes _ _

/-! ### main / dunder-main: startup outcomes and exit codes -/

/-- Startup failures that propagate out of `main()` as exceptions. -/
inductive StartupError where
  | configMissing (name : String)
deriving DecidableEq, Repr

/-- Model of `required_env`: an unset variable reads as the empty string
and raises `RuntimeError('missing env: ...')`. -/
def requiredEnv (name val : String) : Except StartupError String :=
  if val = "" then .error (.configMissing name) else .ok val

/-- The environment values `main()` reads at startup, plus the outcomes of
the two awaited startup steps: the room join and the wait for a remote
participant. -/
structure StartupEnv where
  dailyRoomUrl : String
  dailyToken : String
  elevenApiKey : String
  elevenVoiceId : String
  joinOk : Bool
  participantOk : Bool

/-- Model of the startup control flow of `main()`: the four `required_env`
reads propagate their exception to the caller; a room-join failure is
caught inside `main` (`except Exception: ... return`) and returns
normally, as does a participant timeout; the session body's publish
failures are likewise caught and return. -/
def mainStartup (e : StartupEnv) : Except StartupError Unit :=
  match requiredEnv "DAILY_ROOM_URL" e.dailyRoomUrl with
  | .error er => .error er
  | .ok _ =>
    match requiredEnv "DAILY_TOKEN" e.dailyToken with
    | .error er => .error er
    | .ok _ =>
      match requiredEnv "ELEVENLABS_API_KEY" e.elevenApiKey with
      | .error er => .error er
      | .ok _ =>
        match requiredEnv "ELEVENLABS_VOICE_ID" e.elevenVoiceId with
        | .error er => .error er
        | .ok _ =>
          if e.joinOk then
            (if e.participantOk then .ok () else .ok ())
          else .ok ()

/-- Model of the `__main__` guard: `sys.exit(1)` on an uncaught exception
from `asyncio.run(main())`; the implicit exit code 0 otherwise. -/
def processExitCode (e : StartupEnv) : Nat :=
  match mainStartup e with
  | .ok _ => 0
  | .error _ => 1

/-! ### Claim C7: exit codes -/

/-- C7 as stated is false for the join-failure half: `main()` catches the
join exception and returns, so the process exits 0, not 1, when the room
join fails with all mandatory environment variables present. -/
theorem exit_code_counterexample :
    processExitCode
      { dailyRoomUrl := "u", dailyToken := "t", elevenApiKey := "k",
        elevenVoiceId := "v", joinOk := false, participantOk := true } = 0 ∧
    (0 : Nat) ≠ 1 := by
  exact ⟨rfl, by decide⟩

/-- C7 (amended) property at a startup environment: the process exits 1
exactly when a mandatory environment variable is missing, and 0 in every
other case — including a failed room join, which `main` catches and turns
into a clean return. -/
def exitCodeClaim (e : StartupEnv) : Prop :=
  (processExitCode e = 1 ↔
    (e.dailyRoomUrl = "" ∨ e.dailyToken = "" ∨ e.elevenApiKey = "" ∨ e.elevenVoiceId = "")) ∧
  (processExitCode e = 0 ↔
    (e.dailyRoomUrl ≠ "" ∧ e.dailyToken ≠ "" ∧ e.elevenApiKey ≠ "" ∧ e.elevenVoiceId ≠ ""))

/-- C7 (amended): exit code 1 occurs exactly on missing mandatory
environment; clean exits, idle exits, participant timeouts AND failed
room joins all exit 0. -/
theorem exit_codes (e : StartupEnv) : exitCodeClaim e := by
  unfold exitCodeClaim processExitCode mainStartup requiredEnv
  by_cases h1 : e.dailyRoomUrl = "" <;>
    by_cases h2 : e.dailyToken = "" <;>
      by_cases h3 : e.elevenApiKey = "" <;>
        by_cases h4 : e.elevenVoiceId = "" <;>
          simp [h1, h2, h3, h4]

/-- C7 witness: the amended property at a concrete fully-configured
environment with a failing join. -/
theorem exit_codes_witness :
    exitCodeClaim
      { dailyRoomUrl := "u", dailyToken := "t", elevenApiKey := "k",
        elevenVoiceId := "v", joinOk := false, participantOk := true } :=
  exit_codes _

/-! ### gateway_control_client: write loop and reconnect replay -/

/-- Outbound orchestrator messages (the `GatewayEvent` oneof). -/
inductive OutMsg where
  | sessionOpen (roomUrl : String)
  | feature (rms : ℚ)
  | tts (typ : String)
  | transcriptInterim (text : String)
  | transcriptFinal (text : String)
deriving DecidableEq, Repr

/-- Model of `GatewayControlClient._write_loop` on a sequence of dequeued
queue items.  `none` is the shutdown sentinel (break).  Each message
carries whether `call.write` would succeed were it attempted.  With the
call handle present, a successful write appends to the first list; a
failed write drops the handle and breaks (the failed message is lost).
With the call handle absent, the message is silently discarded (second
list) and the loop continues. -/
def runWriteLoop (callPresent : Bool) :
    List (Option (OutMsg × Bool)) → List OutMsg × List OutMsg
  | [] => ([], [])
  | none :: _ => ([], [])
  | some (m, ok) :: rest =>
    if callPresent then
      if ok then
        let r := runWriteLoop true rest
        (m :: r.1, r.2)
      else ([], [m])
    else
      let r := runWriteLoop false rest
      (r.1, m :: r.2)

/-- The messages the loop dequeues before the shutdown sentinel. -/
def queuedMsgs : List (Option (OutMsg × Bool)) → List OutMsg
  | [] => []
  | none :: _ => []
  | some (m, _) :: rest => m :: queuedMsgs rest

/-- `_room_url_last` after a sequence of `send_session_open` calls: each
call overwrites it with its `room_url` argument. -/
def roomUrlLast (urls : List String) : Option String :=
  urls.foldl (fun _ u => some u) none

/-- The most recent element of a list of urls. -/
def lastUrl : List String → Option String
  | [] => none
  | [u] => some u
  | _ :: rest => lastUrl rest

/-- Model of the replay step of `_reconnect_supervisor`: after swapping in
a fresh call it re-enqueues exactly one `session_open` carrying
`_room_url_last` when that is set, and nothing otherwise. -/
def reconnectReplay (last : Option String) : List OutMsg :=
  match last with
  | some u => [.sessionOpen u]
  | none => []

theorem foldl_lastUrl (us : List String) :
    ∀ (a : Option String),
    us.foldl (fun _ u => some u) a = (match us with | [] => a | _ :: _ => lastUrl us) := by
  induction us with
  | nil => intro a; rfl
  | cons u vs ih =>
    intro a
    simp only [List.foldl]
    rw [ih (some u)]
    cases vs with
    | nil => rfl
    | cons w ws => rfl

theorem roomUrlLast_eq (urls : List String) : roomUrlLast urls = lastUrl urls := by
  unfold roomUrlLast
  rw [foldl_lastUrl]
  cases urls with
  | nil => rfl
  | cons u us => rfl

theorem writeLoop_disconnected (items : List (Option (OutMsg × Bool))) :
    runWriteLoop false items = ([], queuedMsgs items) := by
  induction items with
  | nil => rfl
  | cons it rest ih =>
    cases it with
    | none => rfl
    | some p =>
      cases p with
      | mk m ok =>
        simp [runWriteLoop, queuedMsgs, ih]

/-! ### Claim C10: messages lost while disconnected, session_open replay -/

/-- C10 property at a dequeued-item schedule and a `send_session_open`
history: with the call handle absent, the write loop writes nothing and
silently discards every dequeued message (they are removed from the
queue, not retained), and the reconnect supervisor replays exactly one
`session_open`, the one carrying the most recent room url. -/
def controlLossClaim (items : List (Option (OutMsg × Bool))) (urls : List String) : Prop :=
  (runWriteLoop false items).1 = [] ∧
  (runWriteLoop false items).2 = queuedMsgs items ∧
  reconnectReplay (roomUrlLast urls) =
    (match lastUrl urls with
     | some u => [OutMsg.sessionOpen u]
     | none => [])

/-- C10: while the call handle is absent, every message the write loop
dequeues is silently discarded rather than retained — outbound events
enqueued during a disconnected period are lost — and after reconnect only
the most recent `session_open` is replayed. -/
theorem control_messages_lost (items : List (Option (OutMsg × Bool))) (urls : List String) :
    controlLossClaim items urls := by
  unfold controlLossClaim
  rw [writeLoop_disconnected, roomUrlLast_eq]
  refine ⟨rfl, rfl, ?_⟩
  cases h : lastUrl urls <;> simp [reconnectReplay]

/-- C10 witness: a disconnected period that discards a feature and a TTS
event, with two `session_open` sends of which only the second is
replayed. -/
theorem control_messages_lost_witness :
    controlLossClaim [some (.feature 100, true), some (.tts "stopped", true), none]
      ["room-a", "room-b"] :=
  control_messages_lost _ _

end Gateway
